import Mathlib

/-!
Verification of the SIRA RAG-service ingestion-and-retrieval pipeline
(`rag-service/src/services/{ingestion-service, embedding-service, firestore-service}.ts`
and `rag-service/src/config/environment.ts`), shallowly embedded in Lean.

Modelling conventions:
* JavaScript `number` values are idealised as elements of a linearly ordered
  field; theorems instantiate the field at `ℝ` and `Math.sqrt` at `Real.sqrt`.
  Definitions stay generic over the field and take the square-root function as
  an explicit parameter so that they remain computable.
* JavaScript strings are `List Char`.
* Fallible operations return `Except`; external collaborators (Firestore
  writes, the hosted Vertex AI embedder, provider fetches) are passed in as
  oracle functions, matching the spec's "treated as an opaque function" view.
* Wall-clock fields (timestamps, `processingTime`) and free-text metadata are
  dropped: no claim mentions them.
-/

set_option maxRecDepth 10000

namespace SIRA

/-- Model of the `RAGError` class from `utils/error-handler` as thrown by the
services: an operation tag and a message. -/
structure RAGError where
  operation : String
  message : String
deriving DecidableEq

/-- The accumulator loop shared by `EmbeddingService.calculateSimilarity` and
`FirestoreService.calculateCosineSimilarity`: `dotProduct v1 v2` is the value of
`dotProduct` after the `for` loop; `dotProduct v v` is `norm1`/`norm2`
(the loop adds `v[i] * v[i]`). The loop runs over indices of the first vector;
both call sites first enforce equal lengths. -/
def dotProduct {α : Type} [LinearOrderedField α] : List α → List α → α
  | x :: xs, y :: ys => x * y + dotProduct xs ys
  | _, _ => 0

/-- The body of the two cosine-similarity functions after the length guard:
`magnitude = sqrt(norm1) * sqrt(norm2)`; if it is `0` the code returns `0`,
otherwise `dotProduct / magnitude`. -/
def cosineBody {α : Type} [LinearOrderedField α] (sqrt : α → α) (v1 v2 : List α) : α :=
  let magnitude := sqrt (dotProduct v1 v1) * sqrt (dotProduct v2 v2)
  if magnitude = 0 then 0 else dotProduct v1 v2 / magnitude

/-- `EmbeddingService.calculateSimilarity`: throws a `RAGError` when the two
vectors' lengths differ, otherwise returns the cosine similarity. -/
def calculateSimilarity {α : Type} [LinearOrderedField α] (sqrt : α → α) (v1 v2 : List α) :
    Except RAGError α :=
  if v1.length ≠ v2.length then
    .error ⟨"similarity", "Embeddings must have the same dimensions"⟩
  else
    .ok (cosineBody sqrt v1 v2)

/-- `FirestoreService.calculateCosineSimilarity`: identical computation to
`calculateSimilarity`, with its own error message. -/
def calculateCosineSimilarity {α : Type} [LinearOrderedField α] (sqrt : α → α) (v1 v2 : List α) :
    Except RAGError α :=
  if v1.length ≠ v2.length then
    .error ⟨"similarity", "Vectors must have the same dimensions"⟩
  else
    .ok (cosineBody sqrt v1 v2)

/-- One iteration bound for `IngestionService.chunkText`'s `while` loop, fuelled:
each pass pushes `text.substring(start, end)` with `end = min(start + size, text.length)`,
stops when `end` reaches the end of the text and otherwise continues from
`end - overlap`. `start` strictly increases whenever `overlap < size`, so
`text.length + 1` units of fuel (supplied by `chunkList`) are never exhausted. -/
def chunkListGo {τ : Type} (text : List τ) (size overlap : ℕ) : ℕ → ℕ → List (List τ)
  | 0, _ => []
  | fuel + 1, start =>
    if start < text.length then
      let e := min (start + size) text.length
      let chunk := (text.drop start).take (e - start)
      chunk :: (if e = text.length then [] else chunkListGo text size overlap fuel (e - overlap))
    else []

/-- `IngestionService.chunkText` (generic in the element type; the source
applies it to strings, `storeDocumentsWithEmbeddings`'s `slice` batching is the
`overlap = 0` instance). -/
def chunkList {τ : Type} (text : List τ) (size overlap : ℕ) : List (List τ) :=
  chunkListGo text size overlap (text.length + 1) 0

/-- `chunkText` as applied to a string. -/
def chunkText (text : List Char) (size overlap : ℕ) : List (List Char) :=
  chunkList text size overlap

/-- Whitespace as recognised by JavaScript `String.prototype.trim`
(ASCII subset; the services only feed ASCII summaries). -/
def jsWhitespace (c : Char) : Bool :=
  c = ' ' || c = '\t' || c = '\n' || c = '\r' || c = '\x0b' || c = '\x0c'

/-- JavaScript `text.trim()`: strip whitespace from both ends. -/
def jsTrim (text : List Char) : List Char :=
  ((text.dropWhile jsWhitespace).reverse.dropWhile jsWhitespace).reverse

/-- `EmbeddingService.maxTextLength`, set in the constructor:
"Vertex AI text-embedding-004 limit". -/
def maxTextLength : ℕ := 8192

/-- Successful result shape of `EmbeddingService.generateEmbedding`
(`processingTime` and `metadata` pass-through omitted). -/
structure EmbeddingResponse (α : Type) where
  embedding : List α
  text : List Char
  model : String
  dimensions : ℕ
deriving DecidableEq

/-- `EmbeddingService.generateEmbedding` with the external Genkit `embed` call
abstracted as `embedder`. Guards in source order: `!request.text` (empty string
is falsy), `request.text.trim().length === 0`, then truncation to
`maxTextLength` before embedding; the response's `text` is the processed
(possibly truncated) text. -/
def generateEmbedding {α : Type} (embedder : List Char → List α) (model : String)
    (dimensions : ℕ) (text : List Char) : Except RAGError (EmbeddingResponse α) :=
  if text.isEmpty then
    .error ⟨"embedding", "Text is required and must be a string"⟩
  else if (jsTrim text).length = 0 then
    .error ⟨"embedding", "Text cannot be empty"⟩
  else
    let processedText := if text.length > maxTextLength then text.take maxTextLength else text
    .ok ⟨embedder processedText, processedText, model, dimensions⟩

/-- A JavaScript `number` as seen by `validateEmbedding`'s checks: a finite
value, an infinity, or `NaN`. (Finite values are idealised as rationals.) -/
inductive JSNum : Type
  | num (x : ℚ)
  | posInf
  | negInf
  | nan
deriving DecidableEq

/-- JavaScript's global `isNaN` on a number. -/
def JSNum.isNaN : JSNum → Bool
  | .nan => true
  | _ => false

/-- JavaScript's `Number.isFinite` on a number: true only for finite values. -/
def JSNum.isFinite : JSNum → Bool
  | .num _ => true
  | _ => false

/-- `EmbeddingService.validateEmbedding`: the argument is an array of numbers by
type, so the `Array.isArray` and `typeof value === "number"` checks always pass
in the model; what remains is the length check against the configured dimension
and `!isNaN(value)` for every element. -/
def validateEmbedding (dimensions : ℕ) (embedding : List JSNum) : Bool :=
  embedding.length = dimensions && embedding.all fun value => !value.isNaN

/-- The `rag` block of `config` in `config/environment.ts` (the numeric fields
the verified claims mention, with their defaults; each is overridable by an
environment variable, which is why the definitions below keep them as
parameters and the defaults are only used by concrete witnesses). -/
def defaultVectorDimension : ℕ := 768

/-- `config.rag.similarityThreshold` default (`"0.7"`). -/
def defaultSimilarityThreshold : ℚ := 7 / 10

/-- `config.rag.maxRetrievalResults` default (`"10"`). -/
def defaultMaxRetrievalResults : ℕ := 10

/-- `config.rag.chunkSize` default (`"1000"`). -/
def defaultChunkSize : ℕ := 1000

/-- `config.rag.chunkOverlap` default (`"200"`). -/
def defaultChunkOverlap : ℕ := 200

/-- The record `FirestoreService.storeEmbedding` writes to the embeddings
collection (timestamps and denormalised metadata omitted): note `dimensions`
is set to `embedding.length`, not to the configured dimension, and no
validation of the vector happens anywhere on this path. -/
structure StoredEmbedding (α : Type) where
  documentId : String
  embedding : List α
  content : List Char
  model : String
  dimensions : ℕ
deriving DecidableEq

/-- `FirestoreService.storeEmbedding`, modelled as construction of the record
the Firestore `add` persists. -/
def storeEmbedding {α : Type} (documentId : String) (embedding : List α)
    (content : List Char) (model : String) : StoredEmbedding α :=
  ⟨documentId, embedding, content, model, embedding.length⟩

/-- `IngestionJobStatus.status` values. -/
inductive Status : Type
  | queued
  | running
  | completed
  | failed
  | cancelled
deriving DecidableEq

/-- A processed document as built by `IngestionService.processDocuments`:
the normalised text plus, when the content exceeds the chunk size, its chunks
(metadata fields are opaque to every verified claim and are omitted). -/
structure ProcessedDocument where
  content : List Char
  chunks : Option (List (List Char))
deriving DecidableEq

/-- `IngestionService.processDocuments`: run `processDataItem` over every raw
item (the oracle `processItem` returns `none` when the item's processing throws,
matching `processDataItem`'s own catch-all that logs and returns `null`); a
produced document gets `chunks` exactly when its content is longer than the
chunk size. Failed items are skipped — nothing is tallied. The effective
`chunkSize`/`chunkOverlap` (`options` value or config default via `||`) are
taken as parameters. -/
def processDocuments {ι : Type} (processItem : ι → Option (List Char))
    (chunkSize chunkOverlap : ℕ) (rawData : List ι) : List ProcessedDocument :=
  rawData.filterMap fun item =>
    (processItem item).map fun content =>
      ⟨content, if content.length > chunkSize then some (chunkText content chunkSize chunkOverlap) else none⟩

/-- The chunk loop inside `storeDocumentsWithEmbeddings`'s per-document `try`
block: embed and store each chunk in order; the first failure aborts the rest
of this document's block (the exception reaches the per-document catch, whose
effect is reported by the `Bool`), records stored before the failure remain
stored. Returns (embeddings created, aborted?, records persisted). -/
def storeChunkEmbeddings {α : Type} (genE : List Char → Except RAGError (EmbeddingResponse α))
    (storeE : StoredEmbedding α → Except Unit String) (documentId : String) :
    List (List Char) → ℕ × Bool × List (StoredEmbedding α)
  | [] => (0, false, [])
  | chunk :: rest =>
    match genE chunk with
    | .error _ => (0, true, [])
    | .ok resp =>
      let record := storeEmbedding documentId resp.embedding chunk resp.model
      match storeE record with
      | .error _ => (0, true, [])
      | .ok _ =>
        let out := storeChunkEmbeddings genE storeE documentId rest
        (out.1 + 1, out.2.1, record :: out.2.2)

/-- Per-document tallies and persisted records of `storeDocumentsWithEmbeddings`
(`stored` is the model of the embeddings collection's new records). -/
structure StoreOutcome (α : Type) where
  documentsIngested : ℕ
  embeddingsCreated : ℕ
  errors : ℕ
  stored : List (StoredEmbedding α)
deriving DecidableEq

/-- Componentwise accumulation of outcomes across documents. -/
def StoreOutcome.append {α : Type} (a b : StoreOutcome α) : StoreOutcome α :=
  ⟨a.documentsIngested + b.documentsIngested, a.embeddingsCreated + b.embeddingsCreated,
    a.errors + b.errors, a.stored ++ b.stored⟩

/-- The per-document `try`/`catch` body of `storeDocumentsWithEmbeddings`:
store the document (`storeDoc` oracle returns the new id or throws); on success
`documentsIngested++`; then, when embeddings are enabled, embed and store the
whole content followed by each chunk. Any failure inside the block is caught:
`errors++`, but effects that already happened (the ingested count, records
already stored) are kept. -/
def storeOneDocument {α : Type} (storeDoc : List Char → Except Unit String)
    (genE : List Char → Except RAGError (EmbeddingResponse α))
    (storeE : StoredEmbedding α → Except Unit String)
    (generateEmbeddings : Bool) (doc : ProcessedDocument) : StoreOutcome α :=
  match storeDoc doc.content with
  | .error _ => ⟨0, 0, 1, []⟩
  | .ok documentId =>
    if generateEmbeddings then
      match genE doc.content with
      | .error _ => ⟨1, 0, 1, []⟩
      | .ok resp =>
        let record := storeEmbedding documentId resp.embedding doc.content resp.model
        match storeE record with
        | .error _ => ⟨1, 0, 1, []⟩
        | .ok _ =>
          let out := storeChunkEmbeddings genE storeE documentId (doc.chunks.getD [])
          ⟨1, out.1 + 1, if out.2.1 then 1 else 0, record :: out.2.2⟩
    else ⟨1, 0, 0, []⟩

/-- `IngestionService.storeDocumentsWithEmbeddings`: documents are processed in
`slice` batches of `batchSize`, each batch iterated in order, so the tallies
and stored records are those of the flat in-order iteration (batching only
affects progress updates and inter-batch delays, modelled separately by
`runUpdates`). -/
def storeDocumentsWithEmbeddings {α : Type} (storeDoc : List Char → Except Unit String)
    (genE : List Char → Except RAGError (EmbeddingResponse α))
    (storeE : StoredEmbedding α → Except Unit String)
    (generateEmbeddings : Bool) (documents : List ProcessedDocument) : StoreOutcome α :=
  documents.foldl (fun acc doc => acc.append (storeOneDocument storeDoc genE storeE generateEmbeddings doc))
    ⟨0, 0, 0, []⟩

/-- Final state of one `processIngestionJob` run: terminal status plus the
`results` written on completion. -/
structure JobOutcome (α : Type) where
  status : Status
  results : Option (StoreOutcome α)
deriving DecidableEq

/-- `IngestionService.processIngestionJob` at outcome level: a fetch failure is
fatal (`status = failed`, no results); otherwise `processDocuments` and
`storeDocumentsWithEmbeddings` never throw (every per-item/per-document failure
is caught inside them), so the job always ends `completed` with the
accumulated tallies as `results`. -/
def processIngestionJob {ι α : Type} (fetched : Except Unit (List ι))
    (processItem : ι → Option (List Char)) (chunkSize chunkOverlap : ℕ)
    (storeDoc : List Char → Except Unit String)
    (genE : List Char → Except RAGError (EmbeddingResponse α))
    (storeE : StoredEmbedding α → Except Unit String)
    (generateEmbeddings : Bool) : JobOutcome α :=
  match fetched with
  | .error _ => ⟨.failed, none⟩
  | .ok rawData =>
    let documents := processDocuments processItem chunkSize chunkOverlap rawData
    ⟨.completed, some (storeDocumentsWithEmbeddings storeDoc genE storeE generateEmbeddings documents)⟩

/-- JavaScript `x || dflt` for an optional numeric parameter: an absent value
and the (falsy) value `0` both yield the default; any other value is used as
given. Used by `vectorSearch` for `query.limit` and `query.threshold` (and by
the ingestion options for chunk size, overlap and batch size). -/
def jsOrNat (x : Option ℕ) (dflt : ℕ) : ℕ :=
  match x with
  | none => dflt
  | some v => if v = 0 then dflt else v

/-- JavaScript `x || dflt` for an optional float parameter. -/
def jsOrNum {α : Type} [LinearOrderedField α] (x : Option α) (dflt : α) : α :=
  match x with
  | none => dflt
  | some v => if v = 0 then dflt else v

/-- One element of `VectorSearchResponse.results` (the spread copies the
candidate's fields minus the scratch `similarity`; `score` equals it). -/
structure VectorSearchResult (α : Type) where
  content : List Char
  score : α
  documentId : String
deriving DecidableEq

/-- Response of `FirestoreService.vectorSearch` (processing time omitted;
`queryLimit`/`queryThreshold` echo the effective values the response's `query`
field reports). -/
structure VectorSearchResponse (α : Type) where
  results : List (VectorSearchResult α)
  totalResults : ℕ
  queryLimit : ℕ
  queryThreshold : α
deriving DecidableEq

/-- The `snapshot.docs.forEach` loop of `vectorSearch`: compute the cosine
similarity of the query against each candidate in storage order and keep those
with `similarity >= threshold`. A dimension mismatch makes
`calculateCosineSimilarity` throw, which aborts the whole loop (the exception
escapes `forEach`), so the collection is `Except`-valued. -/
def collectCandidates {α : Type} [LinearOrderedField α] (sqrt : α → α)
    (queryEmbedding : List α) (threshold : α) :
    List (StoredEmbedding α) → Except RAGError (List (VectorSearchResult α))
  | [] => .ok []
  | e :: rest =>
    match calculateCosineSimilarity sqrt queryEmbedding e.embedding with
    | .error err => .error err
    | .ok similarity =>
      match collectCandidates sqrt queryEmbedding threshold rest with
      | .error err => .error err
      | .ok cs =>
        .ok (if threshold ≤ similarity then ⟨e.content, similarity, e.documentId⟩ :: cs else cs)

/-- `FirestoreService.vectorSearch`: default `limit`/`threshold` via `||`;
pre-filter the corpus at the storage layer to the first
`min(limit * 10, 1000)` records (exact-match metadata filters are orthogonal to
every claim and are modelled as already applied to `corpus`); keep candidates
scoring at least `threshold`; sort by similarity descending (JavaScript's
stable sort with comparator `b.similarity - a.similarity`); return the top
`limit`. Any error inside is rethrown tagged `"vector_search"`. The source's
`snapshot.empty` early return coincides with the general path on an empty
pool. -/
def vectorSearch {α : Type} [LinearOrderedField α] (sqrt : α → α)
    (defaultLimit : ℕ) (defaultThreshold : α) (corpus : List (StoredEmbedding α))
    (queryEmbedding : List α) (queryLimit : Option ℕ) (queryThreshold : Option α) :
    Except RAGError (VectorSearchResponse α) :=
  let limit := jsOrNat queryLimit defaultLimit
  let threshold := jsOrNum queryThreshold defaultThreshold
  let pool := corpus.take (min (limit * 10) 1000)
  match collectCandidates sqrt queryEmbedding threshold pool with
  | .error err => .error ⟨"vector_search", "Vector search failed: " ++ err.message⟩
  | .ok candidates =>
    let sorted := candidates.mergeSort fun a b => decide (b.score ≤ a.score)
    let results := sorted.take limit
    .ok ⟨results, results.length, limit, threshold⟩

/-- `IngestionJobStatus.progress.phase` values. -/
inductive Phase : Type
  | fetching
  | processing
  | embedding
  | storing
  | completed
deriving DecidableEq

/-- `IngestionJobStatus.progress`. `percentage` is an integer
(`Math.round` of a ratio scaled to 100). -/
structure JobProgress where
  phase : Phase
  processed : ℕ
  total : ℕ
  percentage : ℤ
deriving DecidableEq

/-- The job-record fields mutated by `updateJobStatus` and `cancelJob` that the
status-machine claims observe. -/
structure JobState where
  status : Status
  progress : JobProgress
deriving DecidableEq

/-- One Firestore `update` payload: a partial update touching the status
and/or the progress block (fields absent from the payload keep their
values). -/
structure JobUpdate where
  status : Option Status
  progress : Option JobProgress
deriving DecidableEq

/-- Merge semantics of a Firestore partial `update` on the job record. -/
def applyUpdate (s : JobState) (u : JobUpdate) : JobState :=
  ⟨u.status.getD s.status, u.progress.getD s.progress⟩

/-- The job record states observed after the initial write and after each
update of a given sequence, in order. -/
def statesFrom (s : JobState) : List JobUpdate → List JobState
  | [] => [s]
  | u :: us => s :: statesFrom (applyUpdate s u) us

/-- JavaScript `Math.round` on an exact ratio. -/
def jsRound (q : ℚ) : ℤ :=
  ⌊q + 1 / 2⌋

/-- The job record as created by `startIngestionJob`: `queued`, phase
`fetching`, all counters zero. -/
def initialJobState : JobState :=
  ⟨.queued, ⟨.fetching, 0, 0, 0⟩⟩

/-- Batch start offsets of the `for (let i = 0; i < documents.length; i += batchSize)`
loop in `storeDocumentsWithEmbeddings`. -/
def batchStarts (total batchSize : ℕ) : List ℕ :=
  (List.range ((total + batchSize - 1) / batchSize)).map (· * batchSize)

/-- The sequence of job-record updates issued by a successful (uncancelled)
`processIngestionJob` run, in program order: `running`; the `fetching`,
`processing` and `storing` phase resets; one progress update per processed
record and per stored batch; finally `completed` with `percentage = 100`.
`fetchLimit` is the requested limit, `n` the fetched record count, `d` the
processed document count, `b` the batch size and `r` = `results.documentsIngested`. -/
def runUpdates (fetchLimit n d b r : ℕ) : List JobUpdate :=
  [⟨some .running, none⟩,
   ⟨none, some ⟨.fetching, 0, fetchLimit, 0⟩⟩,
   ⟨none, some ⟨.processing, 0, n, 0⟩⟩]
  ++ (List.range n).map (fun i => ⟨none, some ⟨.processing, i + 1, n, jsRound ((i + 1 : ℚ) / n * 100)⟩⟩)
  ++ [⟨none, some ⟨.storing, 0, d, 0⟩⟩]
  ++ (batchStarts d b).map (fun i =>
       ⟨none, some ⟨.storing, min (i + b) d, d, jsRound ((min (i + b) d : ℚ) / d * 100)⟩⟩)
  ++ [⟨some .completed, some ⟨.completed, r, r, 100⟩⟩]

/-- `IngestionService.cancelJob`'s update: it sets `status = "cancelled"`
unconditionally — it neither checks the current status nor signals the
asynchronous processing task. -/
def cancelUpdate : JobUpdate :=
  ⟨some .cancelled, none⟩

/-- Rank of a status along the claimed forward order
`queued → running → {completed | failed | cancelled}`. -/
def statusRank : Status → ℕ
  | .queued => 0
  | .running => 1
  | _ => 2

/-- Terminal statuses. -/
def isTerminal : Status → Bool
  | .queued => false
  | .running => false
  | _ => true

/-- The claimed admissible transitions: never backward along the rank order,
and never out of a terminal status. -/
def statusForward (s t : Status) : Bool :=
  statusRank s ≤ statusRank t && (!isTerminal s || s = t)

/-! ## Helper lemmas -/

theorem jsTrim_nil : jsTrim [] = [] := rfl

theorem dropWhile_of_head_neg {τ : Type} {p : τ → Bool} {c : τ} (h : p c = false) :
    ∀ n : ℕ, List.dropWhile p (List.replicate n c) = List.replicate n c := by
  intro n
  cases n with
  | zero => rfl
  | succ m => simp [List.replicate_succ, List.dropWhile_cons, h]

theorem jsTrim_replicate_a (n : ℕ) : jsTrim (List.replicate n 'a') = List.replicate n 'a' := by
  have h : jsWhitespace 'a' = false := by decide
  simp [jsTrim, dropWhile_of_head_neg h, List.reverse_replicate]

theorem dotProduct_comm {α : Type} [LinearOrderedField α] (a : List α) :
    ∀ b : List α, dotProduct a b = dotProduct b a := by
  induction a with
  | nil => intro b; cases b <;> rfl
  | cons x xs ih =>
    intro b
    cases b with
    | nil => rfl
    | cons y ys => simp [dotProduct, ih, mul_comm]

theorem dotProduct_self_nonneg {α : Type} [LinearOrderedField α] (a : List α) :
    0 ≤ dotProduct a a := by
  induction a with
  | nil => exact le_refl 0
  | cons x xs ih => simpa [dotProduct] using add_nonneg (mul_self_nonneg x) ih

theorem dotProduct_eq_sum {α : Type} [LinearOrderedField α] (a : List α) :
    ∀ b : List α, a.length = b.length →
      dotProduct a b = ∑ i ∈ Finset.range a.length, a.getD i 0 * b.getD i 0 := by
  induction a with
  | nil => intro b h; cases b <;> simp [dotProduct]
  | cons x xs ih =>
    intro b h
    cases b with
    | nil => simp at h
    | cons y ys =>
      have h' : xs.length = ys.length := by simpa using h
      rw [dotProduct, ih ys h', List.length_cons, Finset.sum_range_succ']
      simp [add_comm]

theorem dotProduct_sq_le {α : Type} [LinearOrderedField α] (a b : List α)
    (h : a.length = b.length) :
    dotProduct a b ^ 2 ≤ dotProduct a a * dotProduct b b := by
  rw [dotProduct_eq_sum a b h, dotProduct_eq_sum a a rfl, dotProduct_eq_sum b b rfl, ← h]
  calc (∑ i ∈ Finset.range a.length, a.getD i 0 * b.getD i 0) ^ 2
      ≤ (∑ i ∈ Finset.range a.length, a.getD i 0 ^ 2) *
          ∑ i ∈ Finset.range a.length, b.getD i 0 ^ 2 :=
        Finset.sum_mul_sq_le_sq_mul_sq _ _ _
    _ = (∑ i ∈ Finset.range a.length, a.getD i 0 * a.getD i 0) *
          ∑ i ∈ Finset.range a.length, b.getD i 0 * b.getD i 0 := by simp [pow_two]

/-! ## C5 — similarity bounds, identity, symmetry -/

/-- C5: for equal-length vectors of non-zero magnitude, `calculateSimilarity`
returns a value in `[-1, 1]`, is symmetric in its arguments, and maps a vector
against itself to exactly `1` (the real-number idealisation of the
floating-point tolerance). -/
theorem calculateSimilarity_bounds_self_symm (a b : List ℝ) (hlen : a.length = b.length)
    (ha : dotProduct a a ≠ 0) (hb : dotProduct b b ≠ 0) :
    ∃ r, calculateSimilarity Real.sqrt a b = .ok r ∧ -1 ≤ r ∧ r ≤ 1
      ∧ calculateSimilarity Real.sqrt b a = .ok r
      ∧ calculateSimilarity Real.sqrt a a = .ok 1 := by
  have hapos : 0 < dotProduct a a := lt_of_le_of_ne (dotProduct_self_nonneg a) (Ne.symm ha)
  have hbpos : 0 < dotProduct b b := lt_of_le_of_ne (dotProduct_self_nonneg b) (Ne.symm hb)
  have hmag : 0 < Real.sqrt (dotProduct a a) * Real.sqrt (dotProduct b b) :=
    mul_pos (Real.sqrt_pos.mpr hapos) (Real.sqrt_pos.mpr hbpos)
  have habs : |dotProduct a b| ≤ Real.sqrt (dotProduct a a) * Real.sqrt (dotProduct b b) := by
    have h2 := Real.sqrt_le_sqrt (dotProduct_sq_le a b hlen)
    rwa [Real.sqrt_sq_eq_abs, Real.sqrt_mul (le_of_lt hapos)] at h2
  have hbody : cosineBody Real.sqrt a b
      = dotProduct a b / (Real.sqrt (dotProduct a a) * Real.sqrt (dotProduct b b)) := by
    rw [cosineBody, if_neg (ne_of_gt hmag)]
  have hrabs : |cosineBody Real.sqrt a b| ≤ 1 := by
    rw [hbody, abs_div, abs_of_pos hmag]
    exact div_le_one_of_le₀ habs (le_of_lt hmag)
  refine ⟨cosineBody Real.sqrt a b, by simp [calculateSimilarity, hlen], (abs_le.mp hrabs).1,
    (abs_le.mp hrabs).2, ?_, ?_⟩
  · have hsymm : cosineBody Real.sqrt b a = cosineBody Real.sqrt a b := by
      rw [cosineBody, cosineBody, dotProduct_comm b a, mul_comm (Real.sqrt (dotProduct b b))]
    rw [← hsymm]
    simp [calculateSimilarity, hlen]
  · have h1 : cosineBody Real.sqrt a a = 1 := by
      rw [cosineBody, Real.mul_self_sqrt (le_of_lt hapos), if_neg ha, div_self ha]
    rw [← h1]
    simp [calculateSimilarity]

/-- C5 witness: the pair `[1, 2]`, `[2, 1]`. -/
theorem calculateSimilarity_bounds_self_symm_witness :
    ([1, 2] : List ℝ).length = ([2, 1] : List ℝ).length
    ∧ ∃ r, calculateSimilarity Real.sqrt [(1 : ℝ), 2] [2, 1] = .ok r ∧ -1 ≤ r ∧ r ≤ 1
      ∧ calculateSimilarity Real.sqrt [(2 : ℝ), 1] [1, 2] = .ok r
      ∧ calculateSimilarity Real.sqrt [(1 : ℝ), 2] [1, 2] = .ok 1 :=
  ⟨rfl, calculateSimilarity_bounds_self_symm [1, 2] [2, 1] rfl
    (by norm_num [dotProduct]) (by norm_num [dotProduct])⟩

/-! ## C8 — `validateEmbedding` -/

/-- C8 counterexample: the claim says `validateEmbedding` returns `true` iff
the length matches the configured dimension and every element is a finite
number. But the source only checks `!isNaN(value)`, so a vector of the
configured dimension (default 768) consisting of `Infinity` values is accepted
even though none of its elements is finite. -/
theorem validateEmbedding_accepts_nonfinite :
    (List.replicate 768 JSNum.posInf).length = defaultVectorDimension
    ∧ validateEmbedding defaultVectorDimension (List.replicate 768 JSNum.posInf) = true
    ∧ ¬ ∀ x ∈ List.replicate 768 JSNum.posInf, x.isFinite = true := by
  refine ⟨by rw [List.length_replicate]; rfl, ?_, ?_⟩
  · have hall : (List.replicate 768 JSNum.posInf).all (fun value => !value.isNaN) = true := by
      rw [List.all_eq_true]
      intro x hx
      rw [List.eq_of_mem_replicate hx]
      rfl
    rw [validateEmbedding, hall, List.length_replicate]
    rfl
  · intro h
    have hpi := h JSNum.posInf (List.mem_replicate.mpr ⟨by omega, rfl⟩)
    simp [JSNum.isFinite] at hpi

/-- C8 (amended): `validateEmbedding` returns `true` iff the vector's length
equals the configured dimension and no element is `NaN`; non-finite values
(`Infinity`, `-Infinity`) are not rejected. -/
theorem validateEmbedding_iff_not_nan (dimensions : ℕ) (embedding : List JSNum) :
    validateEmbedding dimensions embedding = true ↔
      (embedding.length = dimensions ∧ ∀ x ∈ embedding, x.isNaN = false) := by
  simp [validateEmbedding, List.all_eq_true]

/-! ## C10 — falsy defaulting of `limit` and `threshold` in `vectorSearch` -/

/-- C10: each of `limit` and `threshold` is defaulted independently by its own
`||` coalescing, for every query: a caller-supplied `threshold` of `0` is
replaced by the configured default whatever the `limit` argument is (and vice
versa for a `limit` of `0`), exactly as if the caller had passed nothing for
that parameter; every non-zero caller value is used as given, again
independently of the other parameter (passing non-zero `n` or `v` behaves as a
search whose corresponding default is `n` or `v`). -/
theorem vectorSearch_falsy_defaulting {α : Type} [LinearOrderedField α] (sqrt : α → α)
    (defaultLimit : ℕ) (defaultThreshold : α) (corpus : List (StoredEmbedding α))
    (queryEmbedding : List α) (queryLimit : Option ℕ) (queryThreshold : Option α)
    (n : ℕ) (v : α) (hn : n ≠ 0) (hv : v ≠ 0) :
    vectorSearch sqrt defaultLimit defaultThreshold corpus queryEmbedding queryLimit (some 0)
      = vectorSearch sqrt defaultLimit defaultThreshold corpus queryEmbedding queryLimit none
    ∧ vectorSearch sqrt defaultLimit defaultThreshold corpus queryEmbedding (some 0) queryThreshold
      = vectorSearch sqrt defaultLimit defaultThreshold corpus queryEmbedding none queryThreshold
    ∧ vectorSearch sqrt defaultLimit defaultThreshold corpus queryEmbedding queryLimit (some v)
      = vectorSearch sqrt defaultLimit v corpus queryEmbedding queryLimit none
    ∧ vectorSearch sqrt defaultLimit defaultThreshold corpus queryEmbedding (some n) queryThreshold
      = vectorSearch sqrt n defaultThreshold corpus queryEmbedding none queryThreshold := by
  refine ⟨?_, ?_, ?_, ?_⟩
  · simp [vectorSearch, jsOrNum]
  · simp [vectorSearch, jsOrNat]
  · simp [vectorSearch, jsOrNum, hv]
  · simp [vectorSearch, jsOrNat, hn]

/-- C10 witness: concrete searches over `ℚ`, exercising the mixed cases — a
zero threshold with the non-zero limit 3 in place, and a zero limit with the
non-zero threshold 1/2 in place. -/
theorem vectorSearch_falsy_defaulting_witness :
    vectorSearch (α := ℚ) id 10 (7 / 10) [] [] (some 3) (some 0)
      = vectorSearch id 10 (7 / 10) [] [] (some 3) none
    ∧ vectorSearch (α := ℚ) id 10 (7 / 10) [] [] (some 0) (some (1 / 2))
      = vectorSearch id 10 (7 / 10) [] [] none (some (1 / 2))
    ∧ vectorSearch (α := ℚ) id 10 (7 / 10) [] [] (some 3) (some (1 / 2))
      = vectorSearch id 10 (1 / 2) [] [] (some 3) none
    ∧ vectorSearch (α := ℚ) id 10 (7 / 10) [] [] (some 3) (some (1 / 2))
      = vectorSearch id 3 (7 / 10) [] [] none (some (1 / 2)) :=
  vectorSearch_falsy_defaulting id 10 (7 / 10) [] [] (some 3) (some (1 / 2)) 3 (1 / 2)
    (by norm_num) (by norm_num)

/-! ## C6 — `calculateSimilarity`: dimension guard and zero-magnitude safety -/

/-- C6: `calculateSimilarity` throws a `RAGError` exactly when the two vectors'
lengths differ; on equal lengths it always returns a value (never raises), and
when either vector has zero magnitude it returns `0` rather than dividing by
zero. -/
theorem calculateSimilarity_guard_and_zero (a b : List ℝ) :
    (a.length ≠ b.length →
      calculateSimilarity Real.sqrt a b
        = .error ⟨"similarity", "Embeddings must have the same dimensions"⟩)
    ∧ (a.length = b.length → ∃ r, calculateSimilarity Real.sqrt a b = .ok r)
    ∧ (a.length = b.length →
        (Real.sqrt (dotProduct a a) = 0 ∨ Real.sqrt (dotProduct b b) = 0) →
        calculateSimilarity Real.sqrt a b = .ok 0) := by
  refine ⟨fun h => ?_, fun h => ?_, fun h hz => ?_⟩
  · simp [calculateSimilarity, h]
  · exact ⟨cosineBody Real.sqrt a b, by simp [calculateSimilarity, h]⟩
  · have hm : Real.sqrt (dotProduct a a) * Real.sqrt (dotProduct b b) = 0 := by
      rcases hz with h0 | h0 <;> simp [h0]
    simp [calculateSimilarity, h, cosineBody, hm]

/-- C6 witness: a dimension mismatch raises; the zero vector against itself
yields `0`. -/
theorem calculateSimilarity_guard_and_zero_witness :
    calculateSimilarity Real.sqrt [(1 : ℝ)] [1, 2]
      = .error ⟨"similarity", "Embeddings must have the same dimensions"⟩
    ∧ calculateSimilarity Real.sqrt [(0 : ℝ)] [0] = .ok 0 := by
  constructor
  · exact (calculateSimilarity_guard_and_zero [1] [1, 2]).1 (by simp)
  · exact (calculateSimilarity_guard_and_zero [0] [0]).2.2 rfl
      (Or.inl (by norm_num [dotProduct, Real.sqrt_zero]))

/-! ## C7 — `generateEmbedding`: empty-text guard and truncation -/

/-- C7: `generateEmbedding` fails with a `RAGError` whenever the input trims to
the empty string (empty or whitespace-only input); an over-long input is not
rejected: the result's `text` is the first `maxTextLength` (8192) characters,
which differs from the original input. -/
theorem generateEmbedding_empty_and_truncation {α : Type} (embedder : List Char → List α)
    (model : String) (dims : ℕ) (text : List Char) :
    ((jsTrim text).length = 0 → ∃ e, generateEmbedding embedder model dims text = .error e)
    ∧ ((jsTrim text).length ≠ 0 → maxTextLength < text.length →
        generateEmbedding embedder model dims text
          = .ok ⟨embedder (text.take maxTextLength), text.take maxTextLength, model, dims⟩
        ∧ text.take maxTextLength ≠ text) := by
  constructor
  · intro h
    by_cases he : text.isEmpty
    · exact ⟨⟨"embedding", "Text is required and must be a string"⟩,
        by simp [generateEmbedding, he]⟩
    · exact ⟨⟨"embedding", "Text cannot be empty"⟩, by simp [generateEmbedding, he, h]⟩
  · intro h hlong
    have he : text.isEmpty = false := by
      cases text with
      | nil => exact absurd rfl h
      | cons c cs => rfl
    have hlen : (text.take maxTextLength).length = maxTextLength := by
      simp [List.length_take, Nat.min_eq_left (le_of_lt hlong)]
    refine ⟨by simp [generateEmbedding, he, h, hlong], fun heq => ?_⟩
    rw [heq] at hlen
    omega

/-- C7 witness: a run of 8193 letters is truncated to its first 8192
characters; the empty string is rejected. -/
theorem generateEmbedding_empty_and_truncation_witness :
    (∃ e, generateEmbedding (α := ℚ) (fun _ => [1]) "text-embedding-004" 768 [] = .error e)
    ∧ (generateEmbedding (α := ℚ) (fun _ => [1]) "text-embedding-004" 768
        (List.replicate 8193 'a')
        = .ok ⟨[1], (List.replicate 8193 'a').take maxTextLength, "text-embedding-004", 768⟩
      ∧ (List.replicate 8193 'a').take maxTextLength ≠ List.replicate 8193 'a') := by
  constructor
  · exact (generateEmbedding_empty_and_truncation (fun _ => [1]) "text-embedding-004" 768 []).1
      (by simp [jsTrim_nil])
  · exact (generateEmbedding_empty_and_truncation (fun _ => [1]) "text-embedding-004" 768
      (List.replicate 8193 'a')).2
      (by rw [jsTrim_replicate_a, List.length_replicate]; omega)
      (by rw [List.length_replicate]; decide)



/-- Characterisation of the `chunkText` while-loop from any start offset:
provided `overlap < size` and more than `overlap` characters remain, the loop
emits the sliding windows starting at `start + j * (size - overlap)`. -/
theorem chunkListGo_eq {τ : Type} (t : List τ) (S O : ℕ) (hO : O < S) :
    ∀ fuel start, start < t.length → O < t.length - start → t.length - start ≤ fuel →
      chunkListGo t S O fuel start =
        (List.range ((t.length - start - O + (S - O) - 1) / (S - O))).map
          (fun j => (t.drop (start + j * (S - O))).take S) := by
  intro fuel
  induction fuel with
  | zero => intro start h1 h2 h3; omega
  | succ fuel ih =>
    intro start h1 h2 h3
    by_cases hlast : start + S < t.length
    · have he : min (start + S) t.length = start + S := by omega
      have hene : ¬ (start + S = t.length) := by omega
      have hrec := ih (start + S - O) (by omega) (by omega) (by omega)
      have hnum : t.length - start - O + (S - O) - 1
          = (t.length - (start + S - O) - O + (S - O) - 1) + (S - O) := by omega
      have hdiv : (t.length - start - O + (S - O) - 1) / (S - O)
          = (t.length - (start + S - O) - O + (S - O) - 1) / (S - O) + 1 := by
        rw [hnum, Nat.add_div_right _ (by omega : 0 < S - O)]
      simp only [chunkListGo, if_pos h1, he, if_neg hene, hrec, hdiv,
        List.range_succ_eq_map, List.map_cons, List.map_map]
      congr 1
      · have h0 : start + S - start = S := by omega
        have h00 : start + 0 * (S - O) = start := by omega
        rw [h0, h00]
      · apply List.map_congr_left
        intro j hj
        have hidx : start + S - O + j * (S - O) = start + (j + 1) * (S - O) := by
          have := add_one_mul j (S - O)
          omega
        simp only [Function.comp_apply, Nat.succ_eq_add_one]
        rw [hidx]
    · have he : min (start + S) t.length = t.length := by omega
      have heq : t.length = t.length := rfl
      have hcount : (t.length - start - O + (S - O) - 1) / (S - O) = 1 := by
        apply Nat.div_eq_of_lt_le <;> omega
      have hchunk : (t.drop start).take (t.length - start) = t.drop start :=
        List.take_of_length_le (by simp)
      have hfull : (t.drop start).take S = t.drop start :=
        List.take_of_length_le (by simp; omega)
      simp only [chunkListGo, if_pos h1, he, hchunk, hcount]
      simp [hfull, List.range_succ]


/-- `chunkText` on a text longer than the chunk size produces exactly the
sliding windows at offsets `i * (size - overlap)`, and their number is
`ceil((L - O) / (S - O))`. -/
theorem chunkList_eq {τ : Type} (t : List τ) (S O : ℕ) (hO : O < S) (hL : S < t.length) :
    chunkList t S O =
      (List.range ((t.length - O + (S - O) - 1) / (S - O))).map
        (fun j => (t.drop (j * (S - O))).take S) := by
  have h := chunkListGo_eq t S O hO (t.length + 1) 0 (by omega) (by omega) (by omega)
  simpa [chunkList] using h

/-- Concatenating consecutive `(size - overlap)`-wide windows starting at
`off` reproduces the corresponding segment of the text. -/
theorem flatten_window_map {τ : Type} (t : List τ) (d : ℕ) :
    ∀ (m off : ℕ),
      ((List.range m).map (fun j => (t.drop (off + j * d)).take d)).flatten
        = (t.drop off).take (m * d) := by
  intro m
  induction m with
  | zero => intro off; simp
  | succ m ih =>
    intro off
    rw [List.range_succ, List.map_append, List.flatten_append, ih]
    simp only [List.map_cons, List.map_nil, List.flatten_cons, List.flatten_nil, List.append_nil]
    have hm : (m + 1) * d = m * d + d := add_one_mul m d
    rw [hm, List.take_add]
    congr 1
    rw [List.drop_drop, Nat.add_comm]

/-- Dropping each later chunk's `overlap`-character prefix and concatenating
reconstructs the original text. -/
theorem chunkText_reconstruct (t : List Char) (S O : ℕ) (hO : O < S) (hL : S < t.length) :
    ∀ c cs, chunkText t S O = c :: cs → c ++ (cs.map (fun ck => ck.drop O)).flatten = t := by
  intro c cs hcons
  have heq := chunkList_eq t S O hO hL
  rw [chunkText, heq] at hcons
  set q := (t.length - O + (S - O) - 1) / (S - O) with hq
  cases hk : q with
  | zero => rw [hk] at hcons; simp at hcons
  | succ k =>
    rw [hk, List.range_succ_eq_map, List.map_cons, List.map_map] at hcons
    have hc : c = t.take S := by
      have := hcons
      injection this with h1 h2
      simp at h1
      exact h1.symm
    have hcs : cs = (List.range k).map
        (((fun j => (t.drop (j * (S - O))).take S) ∘ Nat.succ)) := by
      injection hcons with h1 h2
      exact h2.symm
    have hmap : cs.map (fun ck => ck.drop O)
        = (List.range k).map (fun j => (t.drop (S + j * (S - O))).take (S - O)) := by
      rw [hcs, List.map_map]
      apply List.map_congr_left
      intro j hj
      simp only [Function.comp_apply, Nat.succ_eq_add_one]
      rw [List.drop_take, List.drop_drop]
      have hidx : (j + 1) * (S - O) + O = S + j * (S - O) := by
        have := add_one_mul j (S - O)
        omega
      rw [hidx]
    rw [hc, hmap, flatten_window_map]
    rw [← List.take_add]
    apply List.take_of_length_le
    have hd : 0 < S - O := by omega
    have hlt := (Nat.div_lt_iff_lt_mul hd).mp (Nat.lt_succ_self ((t.length - O + (S - O) - 1) / (S - O)))
    have hqk : (t.length - O + (S - O) - 1) / (S - O) = k + 1 := by rw [← hq, hk]
    have hexp2 : (k + 1) * (S - O) = k * (S - O) + (S - O) := add_one_mul _ _
    rw [hqk] at hlt
    have hexp3 : (k + 1).succ * (S - O) = (k + 1) * (S - O) + (S - O) := Nat.succ_mul _ _
    omega


/-- C2: for `O < S < L`, `chunkText` produces the sliding windows in which
chunk `i` starts at `i * (S - O)` and has length `min S (L - i * (S - O))`;
the chunk count is `ceil((L - O) / (S - O))` (written with natural division);
concatenating the chunks with each later chunk's `O`-character overlapping
prefix removed reconstructs the text exactly; and a document whose content
does not exceed the chunk size is left unchunked by `processDocuments`. -/
theorem chunkText_sliding_window (t : List Char) (S O : ℕ) (hO : O < S) (hL : S < t.length) :
    chunkText t S O =
      (List.range ((t.length - O + (S - O) - 1) / (S - O))).map
        (fun i => (t.drop (i * (S - O))).take S)
    ∧ (chunkText t S O).length = (t.length - O + (S - O) - 1) / (S - O)
    ∧ (∀ i, i < (t.length - O + (S - O) - 1) / (S - O) →
        ((chunkText t S O).getD i []).length = min S (t.length - i * (S - O)))
    ∧ (∀ c cs, chunkText t S O = c :: cs → c ++ (cs.map (fun ck => ck.drop O)).flatten = t)
    ∧ (∀ content : List Char, content.length ≤ S →
        processDocuments (fun _ : Unit => some content) S O [()] = [⟨content, none⟩]) := by
  have heq := chunkList_eq t S O hO hL
  refine ⟨heq, ?_, ?_, chunkText_reconstruct t S O hO hL, ?_⟩
  · rw [chunkText, heq]
    simp
  · intro i hi
    rw [chunkText, heq]
    rw [List.getD_eq_getElem _ _ (by simpa using hi)]
    simp [List.length_take]
  · intro content hc
    simp [processDocuments, Nat.not_lt.mpr hc]

/-- C2 witness: the 10-character text over `S = 4`, `O = 1` yields
3 = ceil(9/3) chunks that reconstruct the text. -/
theorem chunkText_sliding_window_witness :
    (1 : ℕ) < 4
    ∧ 4 < (['a', 'b', 'c', 'd', 'e', 'f', 'g', 'h', 'i', 'j'] : List Char).length
    ∧ chunkText ['a', 'b', 'c', 'd', 'e', 'f', 'g', 'h', 'i', 'j'] 4 1
        = [['a', 'b', 'c', 'd'], ['d', 'e', 'f', 'g'], ['g', 'h', 'i', 'j']] := by
  refine ⟨by decide, by decide, ?_⟩
  rw [(chunkText_sliding_window ['a', 'b', 'c', 'd', 'e', 'f', 'g', 'h', 'i', 'j'] 4 1
    (by decide) (by decide)).1]
  decide

/-! ## C3 — `vectorSearch`: threshold filter, ordering, limit, monotonicity -/

/-- When every pre-filtered candidate's stored vector matches the query's
dimension, the candidate-collection loop succeeds and keeps exactly the
candidates scoring at least `threshold`, in storage order. -/
theorem collectCandidates_ok {α : Type} [LinearOrderedField α] (sqrt : α → α)
    (q : List α) (threshold : α) :
    ∀ pool : List (StoredEmbedding α), (∀ e ∈ pool, e.embedding.length = q.length) →
      collectCandidates sqrt q threshold pool
        = .ok (pool.filterMap fun e =>
            if threshold ≤ cosineBody sqrt q e.embedding then
              some ⟨e.content, cosineBody sqrt q e.embedding, e.documentId⟩
            else none) := by
  intro pool
  induction pool with
  | nil => intro _; rfl
  | cons e rest ih =>
    intro h
    have he : e.embedding.length = q.length := h e (by simp)
    have hcs : calculateCosineSimilarity sqrt q e.embedding
        = .ok (cosineBody sqrt q e.embedding) := by
      simp [calculateCosineSimilarity, he]
    rw [collectCandidates, hcs, ih (fun x hx => h x (by simp [hx]))]
    by_cases hth : threshold ≤ cosineBody sqrt q e.embedding
    · simp [hth, List.filterMap_cons]
    · simp [hth, List.filterMap_cons]

/-- Counting rule for `filterMap` with an if-guard. -/
theorem length_filterMap_if {α β : Type} (p : α → Prop) [DecidablePred p] (f : α → β) :
    ∀ l : List α,
      (l.filterMap fun a => if p a then some (f a) else none).length
        = l.countP fun a => decide (p a) := by
  intro l
  induction l with
  | nil => rfl
  | cons x xs ih =>
    by_cases h : p x <;> simp [List.filterMap_cons, List.countP_cons, h, ih]

/-- Shape of a successful `vectorSearch` in terms of the effective limit and
threshold: the result count is `min limit (number of candidates scoring at
least the threshold)`, results are sorted by descending score and every
returned score meets the threshold. -/
theorem vectorSearch_ok (corpus : List (StoredEmbedding ℝ)) (q : List ℝ)
    (queryLimit : Option ℕ) (queryThreshold : Option ℝ) (dL : ℕ) (dT : ℝ)
    (hdims : ∀ e ∈ corpus, e.embedding.length = q.length) :
    ∃ res, vectorSearch Real.sqrt dL dT corpus q queryLimit queryThreshold = .ok res
      ∧ res.results.length
          = min (jsOrNat queryLimit dL)
              ((corpus.take (min (jsOrNat queryLimit dL * 10) 1000)).countP
                fun e => decide (jsOrNum queryThreshold dT ≤ cosineBody Real.sqrt q e.embedding))
      ∧ List.Pairwise (fun x y => y.score ≤ x.score) res.results
      ∧ ∀ r ∈ res.results, jsOrNum queryThreshold dT ≤ r.score := by
  set L := jsOrNat queryLimit dL with hL
  set th := jsOrNum queryThreshold dT with hth
  set pool := corpus.take (min (L * 10) 1000) with hpool
  have hdims2 : ∀ e ∈ pool, e.embedding.length = q.length :=
    fun e he => hdims e (List.take_subset _ _ he)
  have hcc := collectCandidates_ok Real.sqrt q th pool hdims2
  set candidates := pool.filterMap fun e =>
    if th ≤ cosineBody Real.sqrt q e.embedding then
      some (⟨e.content, cosineBody Real.sqrt q e.embedding, e.documentId⟩ : VectorSearchResult ℝ)
    else none with hcand
  have hsearch : vectorSearch Real.sqrt dL dT corpus q queryLimit queryThreshold
      = .ok ⟨(candidates.mergeSort fun a b => decide (b.score ≤ a.score)).take L,
          ((candidates.mergeSort fun a b => decide (b.score ≤ a.score)).take L).length, L, th⟩ := by
    rw [vectorSearch]
    rw [← hL, ← hth, ← hpool, hcc]
  have hperm := List.mergeSort_perm candidates fun a b => decide (b.score ≤ a.score)
  have hsorted : List.Pairwise (fun x y : VectorSearchResult ℝ => y.score ≤ x.score)
      (candidates.mergeSort fun a b => decide (b.score ≤ a.score)) := by
    have h := @List.sorted_mergeSort (VectorSearchResult ℝ)
      (fun a b => decide (b.score ≤ a.score))
      (fun a b c hab hbc => by
        simp only [decide_eq_true_eq] at *
        exact le_trans hbc hab)
      (fun a b => by
        rcases le_total a.score b.score with h | h <;> simp [h])
      candidates
    exact h.imp fun hab => by simpa using hab
  refine ⟨_, hsearch, ?_, ?_, ?_⟩
  · rw [List.length_take, hperm.length_eq, hcand, length_filterMap_if]
  · exact hsorted.sublist (List.take_sublist _ _)
  · intro r hr
    have hr2 : r ∈ candidates := hperm.mem_iff.mp (List.take_subset _ _ hr)
    rw [hcand] at hr2
    rcases List.mem_filterMap.mp hr2 with ⟨e, _, hfe⟩
    by_cases hthe : th ≤ cosineBody Real.sqrt q e.embedding
    · rw [if_pos hthe] at hfe
      cases hfe
      exact hthe
    · rw [if_neg hthe] at hfe
      cases hfe


/-- C3 (amended): with a non-zero caller threshold `t1`, `vectorSearch` keeps
exactly the pre-filtered candidates whose cosine similarity is at least `t1`
(count `min limit (countP ...)`), returns at most `limit` results sorted by
descending score, each scoring at least `t1`; and raising the threshold to any
`t2 ≥ t1` never increases the result count. (For `t1 = 0` the claim fails:
see the counterexample — zero is falsy and is replaced by the configured
default.) -/
theorem vectorSearch_threshold_filter_sort (corpus : List (StoredEmbedding ℝ)) (q : List ℝ)
    (queryLimit : Option ℕ) (dL : ℕ) (dT t₁ t₂ : ℝ)
    (hdims : ∀ e ∈ corpus, e.embedding.length = q.length)
    (hdT : 0 ≤ dT) (h1 : t₁ ≠ 0) (h12 : t₁ ≤ t₂) :
    ∃ res, vectorSearch Real.sqrt dL dT corpus q queryLimit (some t₁) = .ok res
      ∧ res.results.length
          = min (jsOrNat queryLimit dL)
              ((corpus.take (min (jsOrNat queryLimit dL * 10) 1000)).countP
                fun e => decide (t₁ ≤ cosineBody Real.sqrt q e.embedding))
      ∧ res.results.length ≤ jsOrNat queryLimit dL
      ∧ List.Pairwise (fun x y => y.score ≤ x.score) res.results
      ∧ (∀ r ∈ res.results, t₁ ≤ r.score)
      ∧ ∀ res₂, vectorSearch Real.sqrt dL dT corpus q queryLimit (some t₂) = .ok res₂ →
          res₂.results.length ≤ res.results.length := by
  have hjs1 : jsOrNum (some t₁) dT = t₁ := by simp [jsOrNum, h1]
  obtain ⟨res, hres, hlen, hsort, hmem⟩ :=
    vectorSearch_ok corpus q queryLimit (some t₁) dL dT hdims
  rw [hjs1] at hlen hmem
  have hle2 : t₁ ≤ jsOrNum (some t₂) dT := by
    by_cases h2 : t₂ = 0
    · subst h2
      have ht1 : t₁ < 0 := lt_of_le_of_ne h12 h1
      simpa [jsOrNum] using le_trans (le_of_lt ht1) hdT
    · simpa [jsOrNum, h2] using h12
  refine ⟨res, hres, hlen, ?_, hsort, hmem, ?_⟩
  · rw [hlen]
    exact min_le_left _ _
  · intro res₂ hres₂
    obtain ⟨res₂x, hres₂x, hlen₂, _, _⟩ :=
      vectorSearch_ok corpus q queryLimit (some t₂) dL dT hdims
    have hxx : res₂ = res₂x := by
      rw [hres₂] at hres₂x
      exact Except.ok.inj hres₂x
    rw [hxx, hlen₂, hlen]
    refine min_le_min (le_refl _) ?_
    apply List.countP_mono_left
    intro e _ hdec
    simp only [decide_eq_true_eq] at hdec ⊢
    exact le_trans hle2 hdec

/-- C3 witness: empty corpus, thresholds 1/2 ≤ 3/5 with defaults 10 and 0.7. -/
theorem vectorSearch_threshold_filter_sort_witness :
    ∃ res, vectorSearch Real.sqrt 10 (7 / 10 : ℝ) [] [] none (some (1 / 2)) = .ok res
      ∧ res.results.length
          = min (jsOrNat none 10)
              ((List.take (min (jsOrNat none 10 * 10) 1000)
                ([] : List (StoredEmbedding ℝ))).countP
                fun e => decide ((1 / 2 : ℝ) ≤ cosineBody Real.sqrt [] e.embedding))
      ∧ res.results.length ≤ jsOrNat none 10
      ∧ List.Pairwise (fun x y => y.score ≤ x.score) res.results
      ∧ (∀ r ∈ res.results, (1 / 2 : ℝ) ≤ r.score)
      ∧ ∀ res₂, vectorSearch Real.sqrt 10 (7 / 10 : ℝ) [] [] none (some (3 / 5)) = .ok res₂ →
          res₂.results.length ≤ res.results.length :=
  vectorSearch_threshold_filter_sort [] [] none 10 (7 / 10) (1 / 2) (3 / 5)
    (by simp) (by norm_num) (by norm_num) (by norm_num)

/-- C3 counterexample: raising the caller-supplied threshold can increase the
result count. Against a single stored vector `[3, 4]` and query `[1, 0]`
(cosine similarity `3/5 = 0.6`), `threshold = 0` is falsy and becomes the
default `0.7`, yielding 0 results, while the raised `threshold = 1/2` yields
1 result. -/
theorem vectorSearch_raising_zero_threshold_increases_results :
    (0 : ℝ) ≤ 1 / 2
    ∧ (∃ res0, vectorSearch Real.sqrt 10 (7 / 10 : ℝ)
        [⟨"d1", [3, 4], ['x'], "m", 2⟩] [1, 0] (some 10) (some 0) = .ok res0
        ∧ res0.results.length = 0)
    ∧ ∃ res1, vectorSearch Real.sqrt 10 (7 / 10 : ℝ)
        [⟨"d1", [3, 4], ['x'], "m", 2⟩] [1, 0] (some 10) (some (1 / 2)) = .ok res1
        ∧ res1.results.length = 1 := by
  have hcb : cosineBody Real.sqrt [(1 : ℝ), 0] [3, 4] = 3 / 5 := by
    have h25 : Real.sqrt 25 = 5 := by
      rw [show (25 : ℝ) = 5 ^ 2 by norm_num, Real.sqrt_sq (by norm_num : (0 : ℝ) ≤ 5)]
    have hdq : dotProduct [(1 : ℝ), 0] [1, 0] = 1 := by norm_num [dotProduct]
    have hde : dotProduct [(3 : ℝ), 4] [3, 4] = 25 := by norm_num [dotProduct]
    have hdqe : dotProduct [(1 : ℝ), 0] [3, 4] = 3 := by norm_num [dotProduct]
    rw [cosineBody]
    rw [hdq, hde, hdqe, Real.sqrt_one, h25]
    norm_num
  have hdims : ∀ e ∈ [(⟨"d1", [3, 4], ['x'], "m", 2⟩ : StoredEmbedding ℝ)],
      e.embedding.length = ([(1 : ℝ), 0]).length := by
    intro e he
    simp at he
    subst he
    rfl
  have htake : List.take (min (jsOrNat (some 10) 10 * 10) 1000)
      [(⟨"d1", [3, 4], ['x'], "m", 2⟩ : StoredEmbedding ℝ)]
      = [⟨"d1", [3, 4], ['x'], "m", 2⟩] :=
    List.take_of_length_le (by simp [jsOrNat])
  have hL10 : jsOrNat (some 10) 10 = 10 := by norm_num [jsOrNat]
  refine ⟨by norm_num, ?_, ?_⟩
  · obtain ⟨res, hres, hlen, _, _⟩ :=
      vectorSearch_ok [⟨"d1", [3, 4], ['x'], "m", 2⟩] [1, 0] (some 10) (some 0) 10 (7 / 10) hdims
    refine ⟨res, hres, ?_⟩
    have hno : (decide (jsOrNum (some (0 : ℝ)) (7 / 10)
        ≤ cosineBody Real.sqrt [1, 0] [3, 4])) = false := by
      rw [decide_eq_false_iff_not, hcb]
      norm_num [jsOrNum]
    have hcount : List.countP
        (fun e => decide (jsOrNum (some (0 : ℝ)) (7 / 10)
          ≤ cosineBody Real.sqrt [1, 0] e.embedding))
        [(⟨"d1", [3, 4], ['x'], "m", 2⟩ : StoredEmbedding ℝ)] = 0 := by
      rw [List.countP_cons, List.countP_nil]
      rw [show (⟨"d1", [3, 4], ['x'], "m", 2⟩ : StoredEmbedding ℝ).embedding = [3, 4] from rfl]
      rw [hno]
      rfl
    rw [hlen, htake, hcount, hL10]
    omega
  · obtain ⟨res, hres, hlen, _, _⟩ :=
      vectorSearch_ok [⟨"d1", [3, 4], ['x'], "m", 2⟩] [1, 0] (some 10) (some (1 / 2)) 10 (7 / 10) hdims
    refine ⟨res, hres, ?_⟩
    have hyes : (decide (jsOrNum (some (1 / 2 : ℝ)) (7 / 10)
        ≤ cosineBody Real.sqrt [1, 0] [3, 4])) = true := by
      rw [decide_eq_true_eq, hcb]
      norm_num [jsOrNum]
    have hcount : List.countP
        (fun e => decide (jsOrNum (some (1 / 2 : ℝ)) (7 / 10)
          ≤ cosineBody Real.sqrt [1, 0] e.embedding))
        [(⟨"d1", [3, 4], ['x'], "m", 2⟩ : StoredEmbedding ℝ)] = 1 := by
      rw [List.countP_cons, List.countP_nil]
      rw [show (⟨"d1", [3, 4], ['x'], "m", 2⟩ : StoredEmbedding ℝ).embedding = [3, 4] from rfl]
      rw [hyes]
      rfl
    rw [hlen, htake, hcount, hL10]
    omega

/-! ## C1 — partial-failure tallies of an ingestion job -/

/-- When embedding and embedding-storage oracles always succeed, the chunk
loop never aborts. -/
theorem storeChunkEmbeddings_all_ok {α : Type}
    (genE : List Char → Except RAGError (EmbeddingResponse α))
    (storeE : StoredEmbedding α → Except Unit String) (docId : String)
    (hgen : ∀ c, ∃ r, genE c = .ok r) (hstE : ∀ rec, ∃ i, storeE rec = .ok i) :
    ∀ chunks, (storeChunkEmbeddings genE storeE docId chunks).2.1 = false := by
  intro chunks
  induction chunks with
  | nil => rfl
  | cons c cs ih =>
    obtain ⟨r, hr⟩ := hgen c
    obtain ⟨i, hi⟩ := hstE (storeEmbedding docId r.embedding c r.model)
    simp [storeChunkEmbeddings, hr, hi, ih]

/-- Per-document tallies with healthy embedding oracles: one error exactly
when the document store fails, one ingested document exactly when it
succeeds. -/
theorem storeOneDocument_tallies {α : Type} (storeDoc : List Char → Except Unit String)
    (genE : List Char → Except RAGError (EmbeddingResponse α))
    (storeE : StoredEmbedding α → Except Unit String) (generateEmbeddings : Bool)
    (hgen : ∀ c, ∃ r, genE c = .ok r) (hstE : ∀ rec, ∃ i, storeE rec = .ok i)
    (doc : ProcessedDocument) :
    (storeOneDocument storeDoc genE storeE generateEmbeddings doc).errors
        = (if (storeDoc doc.content).isOk then 0 else 1)
    ∧ (storeOneDocument storeDoc genE storeE generateEmbeddings doc).documentsIngested
        = (if (storeDoc doc.content).isOk then 1 else 0) := by
  cases hsd : storeDoc doc.content with
  | error e => simp [storeOneDocument, hsd, Except.isOk, Except.toBool]
  | ok docId =>
    cases generateEmbeddings with
    | false => simp [storeOneDocument, hsd, Except.isOk, Except.toBool]
    | true =>
      obtain ⟨r, hr⟩ := hgen doc.content
      obtain ⟨i, hi⟩ := hstE (storeEmbedding docId r.embedding doc.content r.model)
      have hab := storeChunkEmbeddings_all_ok genE storeE docId hgen hstE (doc.chunks.getD [])
      simp [storeOneDocument, hsd, hr, hi, hab, Except.isOk, Except.toBool]

/-- The batch fold accumulates per-document tallies additively. -/
theorem foldl_outcome_tallies {α : Type} (g : ProcessedDocument → StoreOutcome α) :
    ∀ (docs : List ProcessedDocument) (acc : StoreOutcome α),
      ((docs.foldl (fun a d => a.append (g d)) acc).errors
          = acc.errors + (docs.map fun d => (g d).errors).sum)
      ∧ ((docs.foldl (fun a d => a.append (g d)) acc).documentsIngested
          = acc.documentsIngested + (docs.map fun d => (g d).documentsIngested).sum) := by
  intro docs
  induction docs with
  | nil => intro acc; simp
  | cons d ds ih =>
    intro acc
    simp only [List.foldl_cons, List.map_cons, List.sum_cons]
    refine ⟨?_, ?_⟩
    · rw [(ih _).1]
      simp [StoreOutcome.append]
      omega
    · rw [(ih _).2]
      simp [StoreOutcome.append]
      omega

/-- Summing an if-indicator equals counting. -/
theorem sum_map_ite_one {β : Type} (p : β → Bool) :
    ∀ l : List β, (l.map fun d => if p d then 1 else 0).sum = l.countP p := by
  intro l
  induction l with
  | nil => rfl
  | cons x xs ih =>
    by_cases h : p x
    · simp [List.countP_cons, h, ih]
      omega
    · simp [List.countP_cons, h, ih]

/-- `filterMap` keeps `length - (number of `none` results)` elements. -/
theorem length_filterMap_countP {ι β : Type} (f : ι → Option β) :
    ∀ l : List ι, (l.filterMap f).length = l.length - l.countP fun i => (f i).isNone := by
  intro l
  induction l with
  | nil => rfl
  | cons x xs ih =>
    have hle := List.countP_le_length (l := xs) (p := fun i => (f i).isNone)
    cases hfx : f x with
    | none => simp [List.filterMap_cons, hfx, List.countP_cons, ih]
    | some b =>
      simp [List.filterMap_cons, hfx, List.countP_cons, ih]
      omega

/-- C1 (amended): when the fetch succeeds with `N` records and the embedding
oracles are healthy, the job always reaches `completed`; `results.errors`
counts exactly the documents whose store call throws (store-phase failures),
`results.documentsIngested` counts those whose store call succeeds, and the
document list has length `N - M` where `M` counts per-record processing
failures. Hence: `M` processing failures alone give `errors = 0` (they are
logged and skipped, not tallied) and `documentsIngested = N - M`, while `M`
store-phase failures alone give `errors = M` and `documentsIngested = N - M`. -/
theorem ingestion_partial_failure_tallies {ι α : Type} (rawData : List ι)
    (processItem : ι → Option (List Char)) (chunkSize chunkOverlap : ℕ)
    (storeDoc : List Char → Except Unit String)
    (genE : List Char → Except RAGError (EmbeddingResponse α))
    (storeE : StoredEmbedding α → Except Unit String) (generateEmbeddings : Bool)
    (hgen : ∀ c, ∃ r, genE c = .ok r) (hstE : ∀ rec, ∃ i, storeE rec = .ok i) :
    ∃ out, processIngestionJob (.ok rawData) processItem chunkSize chunkOverlap
        storeDoc genE storeE generateEmbeddings = ⟨.completed, some out⟩
      ∧ out.errors = (processDocuments processItem chunkSize chunkOverlap rawData).countP
          (fun d => !(storeDoc d.content).isOk)
      ∧ out.documentsIngested
          = (processDocuments processItem chunkSize chunkOverlap rawData).countP
              (fun d => (storeDoc d.content).isOk)
      ∧ (processDocuments processItem chunkSize chunkOverlap rawData).length
          = rawData.length - rawData.countP (fun it => (processItem it).isNone)
      ∧ out.documentsIngested + out.errors
          = rawData.length - rawData.countP (fun it => (processItem it).isNone) := by
  set docs := processDocuments processItem chunkSize chunkOverlap rawData with hdocs
  have herr : (storeDocumentsWithEmbeddings storeDoc genE storeE generateEmbeddings docs).errors
      = docs.countP fun d => !(storeDoc d.content).isOk := by
    rw [storeDocumentsWithEmbeddings, (foldl_outcome_tallies _ docs _).1]
    have hpt : ∀ d ∈ docs,
        (storeOneDocument storeDoc genE storeE generateEmbeddings d).errors
          = if !(storeDoc d.content).isOk then 1 else 0 := by
      intro d _
      rw [(storeOneDocument_tallies storeDoc genE storeE generateEmbeddings hgen hstE d).1]
      by_cases h : (storeDoc d.content).isOk <;> simp [h]
    rw [List.map_congr_left hpt, sum_map_ite_one]
    simp
  have hing : (storeDocumentsWithEmbeddings storeDoc genE storeE
        generateEmbeddings docs).documentsIngested
      = docs.countP fun d => (storeDoc d.content).isOk := by
    rw [storeDocumentsWithEmbeddings, (foldl_outcome_tallies _ docs _).2]
    have hpt : ∀ d ∈ docs,
        (storeOneDocument storeDoc genE storeE generateEmbeddings d).documentsIngested
          = if (storeDoc d.content).isOk then 1 else 0 := fun d _ =>
      (storeOneDocument_tallies storeDoc genE storeE generateEmbeddings hgen hstE d).2
    rw [List.map_congr_left hpt, sum_map_ite_one]
    simp
  have hlen : docs.length = rawData.length - rawData.countP fun it => (processItem it).isNone := by
    rw [hdocs, processDocuments, length_filterMap_countP]
    congr 1
    apply List.countP_congr
    intro it _
    cases processItem it <;> simp
  refine ⟨storeDocumentsWithEmbeddings storeDoc genE storeE generateEmbeddings docs,
    rfl, herr, hing, hlen, ?_⟩
  rw [herr, hing, ← hlen]
  have h1 := List.length_eq_countP_add_countP (fun d => (storeDoc d.content).isOk) docs
  simp only [decide_not, Bool.decide_eq_true] at h1
  omega


/-- C1 counterexample: a fetch of `N = 2` records where processing record `1`
throws (caught and logged). The job completes and `documentsIngested = 1 =
N - M`, but `results.errors = 0`, not `M = 1`: per-record processing failures
are not tallied in the error counter. -/
theorem ingestion_processing_failures_not_tallied :
    processIngestionJob (ι := ℕ) (α := ℚ) (.ok [0, 1])
        (fun i => if i = 0 then some ['d'] else none) 1000 200
        (fun _ => .ok "doc") (fun c => .ok ⟨[1], c, "m", 1⟩) (fun _ => .ok "emb") true
      = ⟨.completed, some ⟨1, 1, 0, [⟨"doc", [1], ['d'], "m", 1⟩]⟩⟩
    ∧ ([0, 1] : List ℕ).length = 2
    ∧ ([0, 1] : List ℕ).countP
        (fun i => ((if i = 0 then some ['d'] else none) : Option (List Char)).isNone) = 1
    ∧ (0 : ℕ) ≠ 1 := by
  refine ⟨rfl, rfl, ?_, by omega⟩
  decide

/-- C1 witness: the concrete two-record run with healthy oracles. -/
theorem ingestion_partial_failure_tallies_witness :
    ∃ out, processIngestionJob (ι := ℕ) (α := ℚ) (.ok [0, 1])
        (fun i => if i = 0 then some ['d'] else none) 1000 200
        (fun _ => .ok "doc") (fun c => .ok ⟨[1], c, "m", 1⟩) (fun _ => .ok "emb") true
        = ⟨.completed, some out⟩
      ∧ out.errors = (processDocuments (fun i : ℕ => if i = 0 then some ['d'] else none)
          1000 200 [0, 1]).countP
          (fun d => !((fun _ : List Char => (.ok "doc" : Except Unit String)) d.content).isOk)
      ∧ out.documentsIngested = (processDocuments (fun i : ℕ => if i = 0 then some ['d'] else none)
          1000 200 [0, 1]).countP
          (fun d => ((fun _ : List Char => (.ok "doc" : Except Unit String)) d.content).isOk)
      ∧ (processDocuments (fun i : ℕ => if i = 0 then some ['d'] else none)
          1000 200 [0, 1]).length
          = ([0, 1] : List ℕ).length - ([0, 1] : List ℕ).countP
              (fun it => ((fun i : ℕ => if i = 0 then some ['d'] else none) it).isNone)
      ∧ out.documentsIngested + out.errors
          = ([0, 1] : List ℕ).length - ([0, 1] : List ℕ).countP
              (fun it => ((fun i : ℕ => if i = 0 then some ['d'] else none) it).isNone) :=
  ingestion_partial_failure_tallies [0, 1] (fun i => if i = 0 then some ['d'] else none)
    1000 200 (fun _ => .ok "doc") (fun c => .ok ⟨[1], c, "m", 1⟩) (fun _ => .ok "emb") true
    (fun c => ⟨⟨[1], c, "m", 1⟩, rfl⟩) (fun _ => ⟨"emb", rfl⟩)

/-! ## C9 — stored embedding dimensions -/

/-- The batch fold concatenates per-document stored records. -/
theorem foldl_outcome_stored {α : Type} (g : ProcessedDocument → StoreOutcome α) :
    ∀ (docs : List ProcessedDocument) (acc : StoreOutcome α),
      (docs.foldl (fun a d => a.append (g d)) acc).stored
        = acc.stored ++ (docs.map fun d => (g d).stored).flatten := by
  intro docs
  induction docs with
  | nil => intro acc; simp
  | cons d ds ih =>
    intro acc
    simp only [List.foldl_cons, List.map_cons, List.flatten_cons]
    rw [ih]
    simp [StoreOutcome.append]

/-- Every record persisted by the chunk loop is an embedder output stored
verbatim. -/
theorem storeChunkEmbeddings_stored_spec {α : Type}
    (genE : List Char → Except RAGError (EmbeddingResponse α))
    (storeE : StoredEmbedding α → Except Unit String) (docId : String) :
    ∀ chunks, ∀ s ∈ (storeChunkEmbeddings genE storeE docId chunks).2.2,
      ∃ c r, genE c = .ok r ∧ s = storeEmbedding docId r.embedding c r.model := by
  intro chunks
  induction chunks with
  | nil => intro s hs; simp [storeChunkEmbeddings] at hs
  | cons ch rest ih =>
    intro s hs
    cases hg : genE ch with
    | error e => simp [storeChunkEmbeddings, hg] at hs
    | ok r =>
      cases hst : storeE (storeEmbedding docId r.embedding ch r.model) with
      | error e => simp [storeChunkEmbeddings, hg, hst] at hs
      | ok i =>
        simp only [storeChunkEmbeddings, hg, hst, List.mem_cons] at hs
        rcases hs with hs | hs
        · exact ⟨ch, r, hg, hs⟩
        · exact ih s hs

/-- Every record persisted for one document carries an embedder output
verbatim, with `dimensions` set to that vector's length. -/
theorem storeOneDocument_stored_spec {α : Type} (storeDoc : List Char → Except Unit String)
    (genE : List Char → Except RAGError (EmbeddingResponse α))
    (storeE : StoredEmbedding α → Except Unit String) (generateEmbeddings : Bool)
    (doc : ProcessedDocument) :
    ∀ s ∈ (storeOneDocument storeDoc genE storeE generateEmbeddings doc).stored,
      ∃ c r, genE c = .ok r ∧ s.embedding = r.embedding
        ∧ s.dimensions = r.embedding.length := by
  intro s hs
  cases hsd : storeDoc doc.content with
  | error e => simp [storeOneDocument, hsd] at hs
  | ok docId =>
    cases generateEmbeddings with
    | false => simp [storeOneDocument, hsd] at hs
    | true =>
      cases hg : genE doc.content with
      | error e => simp [storeOneDocument, hsd, hg] at hs
      | ok resp =>
        cases hst : storeE (storeEmbedding docId resp.embedding doc.content resp.model) with
        | error e => simp [storeOneDocument, hsd, hg, hst] at hs
        | ok i =>
          simp only [storeOneDocument, hsd, hg, hst, List.mem_cons] at hs
          cases hs with
          | head => exact ⟨doc.content, resp, hg, rfl, rfl⟩
          | tail b h2 =>
            obtain ⟨c, r, hgc, hrec⟩ :=
              storeChunkEmbeddings_stored_spec genE storeE docId (doc.chunks.getD []) s h2
            exact ⟨c, r, hgc, by rw [hrec]; rfl, by rw [hrec]; rfl⟩

/-- C9 (amended): `storeEmbedding` persists whatever vector it is given and
sets the record's `dimensions` field to that vector's actual length; no
validation against the configured dimension happens anywhere on the ingestion
path. Consequently the claimed invariant holds only conditionally: if the
embedder always returns vectors of length `dims`, then every record stored by
an ingestion job has vector length `dims` (and `dimensions = dims`). -/
theorem storedEmbedding_dimensions_track_vector {ι α : Type} (fetched : Except Unit (List ι))
    (processItem : ι → Option (List Char)) (chunkSize chunkOverlap : ℕ)
    (storeDoc : List Char → Except Unit String)
    (genE : List Char → Except RAGError (EmbeddingResponse α))
    (storeE : StoredEmbedding α → Except Unit String) (generateEmbeddings : Bool)
    (dims : ℕ) (hgen : ∀ c r, genE c = .ok r → r.embedding.length = dims) :
    (∀ (documentId : String) (embedding : List α) (content : List Char) (model : String),
        (storeEmbedding documentId embedding content model).dimensions = embedding.length
        ∧ (storeEmbedding documentId embedding content model).embedding = embedding)
    ∧ ∀ out, (processIngestionJob fetched processItem chunkSize chunkOverlap storeDoc genE
          storeE generateEmbeddings).results = some out →
        ∀ s ∈ out.stored, s.embedding.length = dims ∧ s.dimensions = dims := by
  refine ⟨fun _ _ _ _ => ⟨rfl, rfl⟩, ?_⟩
  intro out hout s hs
  cases fetched with
  | error e => simp [processIngestionJob] at hout
  | ok rawData =>
    simp only [processIngestionJob] at hout
    cases hout
    rw [storeDocumentsWithEmbeddings, foldl_outcome_stored] at hs
    simp only [List.nil_append, List.mem_flatten, List.mem_map] at hs
    obtain ⟨recs, ⟨d, _, hrecs⟩, hsrecs⟩ := hs
    obtain ⟨c, r, hgc, hemb, hdim⟩ :=
      storeOneDocument_stored_spec storeDoc genE storeE generateEmbeddings d s
        (by rw [hrecs]; exact hsrecs)
    have hlen := hgen c r hgc
    exact ⟨by rw [hemb, hlen], by rw [hdim, hlen]⟩

/-- C9 counterexample: with the configured dimension at its default 768,
`storeEmbedding` happily persists a 1-component vector (and an ingestion job
using `generateEmbedding` over an embedder that returns `[1]` writes exactly
such a record): the claimed invariant `vector length = configured dimension`
is not enforced by the code. -/
theorem storeEmbedding_ignores_configured_dimension :
    (storeEmbedding "doc1" [(1 : ℚ)] ['h', 'i'] "text-embedding-004").embedding.length = 1
    ∧ (storeEmbedding "doc1" [(1 : ℚ)] ['h', 'i'] "text-embedding-004").dimensions = 1
    ∧ defaultVectorDimension = 768
    ∧ (1 : ℕ) ≠ 768
    ∧ (processIngestionJob (ι := Unit) (.ok [()]) (fun _ => some ['h', 'i']) 1000 200
        (fun _ => .ok "doc1")
        (generateEmbedding (fun _ => [(1 : ℚ)]) "text-embedding-004" defaultVectorDimension)
        (fun _ => .ok "emb") true).results
      = some ⟨1, 1, 0, [⟨"doc1", [1], ['h', 'i'], "text-embedding-004", 1⟩]⟩ := by
  exact ⟨rfl, rfl, rfl, by omega, rfl⟩

/-- C9 witness: a one-record job whose embedder always returns a length-1
vector. -/
theorem storedEmbedding_dimensions_track_vector_witness :
    (∀ (documentId : String) (embedding : List ℚ) (content : List Char) (model : String),
        (storeEmbedding documentId embedding content model).dimensions = embedding.length
        ∧ (storeEmbedding documentId embedding content model).embedding = embedding)
    ∧ ∀ out, (processIngestionJob (ι := ℕ) (.ok [0]) (fun _ => some ['d']) 1000 200
          (fun _ => .ok "doc") (fun c => .ok ⟨[(1 : ℚ)], c, "m", 1⟩)
          (fun _ => .ok "emb") true).results = some out →
        ∀ s ∈ out.stored, s.embedding.length = 1 ∧ s.dimensions = 1 :=
  storedEmbedding_dimensions_track_vector (.ok [0]) (fun _ => some ['d']) 1000 200
    (fun _ => .ok "doc") (fun c => .ok ⟨[(1 : ℚ)], c, "m", 1⟩) (fun _ => .ok "emb") true 1
    (fun c r h => by cases h; rfl)
/-! ## C4 — job status monotonicity under cancellation -/

/-- C4: evaluation of the code at the failing interleaving. A one-record job
runs to the end of its storing phase; `cancelJob` lands just before the final
update. `cancelJob` only flips the persisted status — the asynchronous task is
not signalled and keeps running — so its final update overwrites the record:
the observed status sequence ends `..., cancelled, completed`, a transition out
of a terminal state, violating the claimed forward-only invariant (the same
unconditional `cancelJob` update also turns already-`completed` jobs into
`cancelled`). -/
theorem cancelled_job_overwritten_to_completed :
    ((statesFrom initialJobState
        ((runUpdates 10 1 1 10 1).dropLast
          ++ [cancelUpdate, ⟨some .completed, some ⟨.completed, 1, 1, 100⟩⟩])).map
      JobState.status)
      = [.queued, .running, .running, .running, .running, .running, .running,
         .cancelled, .completed]
    ∧ ¬ List.Chain' (fun s t => statusForward s t = true)
        ((statesFrom initialJobState
            ((runUpdates 10 1 1 10 1).dropLast
              ++ [cancelUpdate, ⟨some .completed, some ⟨.completed, 1, 1, 100⟩⟩])).map
          JobState.status) := by
  have hmap : ((statesFrom initialJobState
      ((runUpdates 10 1 1 10 1).dropLast
        ++ [cancelUpdate, ⟨some .completed, some ⟨.completed, 1, 1, 100⟩⟩])).map
      JobState.status)
      = [.queued, .running, .running, .running, .running, .running, .running,
         .cancelled, .completed] := by decide
  refine ⟨hmap, ?_⟩
  rw [hmap]
  simp [List.chain'_cons, statusForward, statusRank, isTerminal]

end SIRA
